import Mathlib

/-!
Verification development for the local-wikidata import and cache engine.

The repository ships a SvelteKit frontend (src/frontend/src/routes/+page.svelte)
whose search function is embedded below in namespace `Frontend`, directly from
the source. The backend engine (record decoder, storage engine, checkpoint
store, import coordinator, write-through cache coordinator) is declared by the
architecture documents but its code is not present in the repository, so those
components are modelled from the specification text; each such definition
carries a doc comment saying so.

Machine-level details are abstracted as the spec describes them: byte offsets
in the dump stream are modelled as record indices (each raw record is one
offset unit), raw dump bytes are modelled by an inductive that either decodes
to an Entity or fails, and durable writes (batch commit, checkpoint save) are
modelled as atomic state updates with explicit crash points between them.
-/

namespace LocalWikidata

/-- Provenance of a stored row: bulk dump import or live API fetch. -/
inductive Source where
  | dump
  | api
deriving DecidableEq, Repr

/-- Entity kind: Wikidata items (Q…) and properties (P…). -/
inductive Kind where
  | item
  | property
deriving DecidableEq, Repr

/-- Modelled from the spec: the Entity data model of section 3 — id, kind,
labels/descriptions/aliases keyed by language code, an opaque claims payload,
the last-write timestamp and the provenance tag. -/
structure Entity where
  id : String
  kind : Kind
  labels : List (String × String)
  descriptions : List (String × String)
  aliases : List (String × List String)
  claims : String
  fetched_at : Nat
  source : Source
deriving DecidableEq, Repr

/-- Modelled from the spec: the Storage Engine's persisted row set. Rows are
kept most-recent-first; an upsert replaces any prior row with the same id. -/
def upsert (e : Entity) (s : List Entity) : List Entity :=
  e :: s.filter (fun x => x.id != e.id)

/-- Modelled from the spec: `upsert_batch` transactionally writes all rows of a
batch, replacing existing rows by id. -/
def upsert_batch (b : List Entity) (s : List Entity) : List Entity :=
  b.foldl (fun acc e => upsert e acc) s

/-- Modelled from the spec: `get(id)` — point lookup by id. -/
def get (i : String) (s : List Entity) : Option Entity :=
  s.find? (fun x => x.id == i)

/-- Modelled from the spec: `stats()` — counts by kind. -/
def stats (s : List Entity) : Nat × Nat :=
  (s.countP (fun e => e.kind == Kind.item), s.countP (fun e => e.kind == Kind.property))

/-- Does some entity of the batch carry the same id as `x`? -/
def hitB (b : List Entity) (x : Entity) : Bool :=
  b.any (fun e => x.id == e.id)

theorem upsert_batch_nil (s : List Entity) : upsert_batch [] s = s := rfl

theorem upsert_batch_cons (e : Entity) (b : List Entity) (s : List Entity) :
    upsert_batch (e :: b) s = upsert_batch b (upsert e s) := rfl

theorem upsert_batch_append (l₁ l₂ : List Entity) (s : List Entity) :
    upsert_batch (l₁ ++ l₂) s = upsert_batch l₂ (upsert_batch l₁ s) := by
  simp [upsert_batch, List.foldl_append]

/-- Applying a batch splits into a state-independent head plus the survivors of
the old state (rows whose id the batch does not touch). -/
theorem upsert_batch_split (b : List Entity) (s : List Entity) :
    upsert_batch b s = upsert_batch b [] ++ s.filter (fun x => !hitB b x) := by
  induction b generalizing s with
  | nil => simp [upsert_batch, hitB]
  | cons e b ih =>
    rw [upsert_batch_cons, upsert_batch_cons, ih (upsert e s), ih (upsert e [])]
    have hq : upsert e s = [e] ++ s.filter (fun x => x.id != e.id) := rfl
    have hq0 : upsert e [] = [e] := rfl
    rw [hq, hq0, List.filter_append, List.filter_filter, List.append_assoc]
    congr 1
    congr 1
    apply List.filter_congr
    intro x _
    simp [hitB, List.any_cons, Bool.not_or, Bool.and_comm, bne]

/-- Every row produced by applying a batch either carries an id of the batch or
was already in the starting state. -/
theorem mem_upsert_batch (b : List Entity) (s : List Entity) (x : Entity)
    (h : x ∈ upsert_batch b s) : hitB b x = true ∨ x ∈ s := by
  induction b generalizing s with
  | nil => exact Or.inr h
  | cons e b ih =>
    rw [upsert_batch_cons] at h
    rcases ih (upsert e s) h with hh | hh
    · left
      simp only [hitB, List.any_cons, Bool.or_eq_true]
      right
      simpa [hitB] using hh
    · rcases List.mem_cons.1 hh with rfl | hm
      · left
        simp [hitB]
      · right
        exact (List.mem_filter.1 hm).1

/-- Idempotence of batch application: the stored state after applying a batch
twice is the very state after applying it once. -/
theorem upsert_batch_idem (b : List Entity) (s : List Entity) :
    upsert_batch b (upsert_batch b s) = upsert_batch b s := by
  conv_lhs => rw [upsert_batch_split b (upsert_batch b s), upsert_batch_split b s]
  rw [upsert_batch_split b s]
  rw [List.filter_append, List.filter_filter]
  have h1 : (upsert_batch b []).filter (fun x => !hitB b x) = [] := by
    rw [List.filter_eq_nil_iff]
    intro x hx
    rcases mem_upsert_batch b [] x hx with hh | hh
    · simp [hh]
    · cases hh
  have h2 : (s.filter fun x => !hitB b x && !hitB b x) = s.filter (fun x => !hitB b x) := by
    apply List.filter_congr
    intro x _
    rw [Bool.and_self]
  rw [h1, h2, List.nil_append]

/-- A point lookup after an upsert with the same id returns the new row. -/
theorem get_upsert_self (e : Entity) (s : List Entity) :
    get e.id (upsert e s) = some e := by
  simp [get, upsert, List.find?]

/-- C2: applying the same decoded batch to the Storage Engine twice yields an
identical stored state and identical `stats()` as applying it once; a single
upsert with an existing id replaces the prior row (lookups return the new row)
and re-applying it any number of times changes nothing. -/
theorem upsert_batch_idempotent (b : List Entity) (s : List Entity) :
    upsert_batch b (upsert_batch b s) = upsert_batch b s ∧
    stats (upsert_batch b (upsert_batch b s)) = stats (upsert_batch b s) ∧
    (∀ e : Entity, get e.id (upsert e s) = some e ∧
      upsert e (upsert e s) = upsert e s) := by
  refine ⟨upsert_batch_idem b s, congrArg stats (upsert_batch_idem b s), ?_⟩
  intro e
  refine ⟨get_upsert_self e s, ?_⟩
  have := upsert_batch_idem [e] s
  simpa [upsert_batch, upsert_batch_cons] using this

/-- Modelled from the spec: decode failures of the Record Decoder (malformed
JSON, missing id, unknown kind). -/
inductive DecodeErr where
  | malformed
deriving DecidableEq, Repr

/-- Modelled from the spec: a raw dump record, abstracted to whether the pure,
deterministic Record Decoder accepts it (yielding an Entity) or rejects it. -/
inductive Raw where
  | good (e : Entity)
  | bad
deriving DecidableEq, Repr

/-- Modelled from the spec: the Record Decoder — a pure function from raw bytes
to an Entity or a `DecodeError`. -/
def decode : Raw → Except DecodeErr Entity
  | Raw.good e => Except.ok e
  | Raw.bad => Except.error DecodeErr.malformed

/-- The successfully decoded subset of a batch of raw records, in order. -/
def decodeOk (rs : List Raw) : List Entity :=
  rs.filterMap (fun r => (decode r).toOption)

/-- The number of per-record decode failures in a batch. -/
def decodeErrCount (rs : List Raw) : Nat :=
  rs.countP (fun r => !(decode r).toOption.isSome)

theorem decodeOk_append (l₁ l₂ : List Raw) :
    decodeOk (l₁ ++ l₂) = decodeOk l₁ ++ decodeOk l₂ := by
  simp [decodeOk]

theorem decode_good_toOption (e : Entity) :
    (decode (Raw.good e)).toOption = some e := rfl

theorem decode_bad_toOption : (decode Raw.bad).toOption = none := rfl

/-- Successes and failures of a batch partition it. -/
theorem decodeOk_length_add_errCount (rs : List Raw) :
    (decodeOk rs).length + decodeErrCount rs = rs.length := by
  induction rs with
  | nil => rfl
  | cons r rs ih =>
    cases r with
    | good e =>
      simp [decodeOk, decodeErrCount, List.filterMap_cons, List.countP_cons,
        decode_good_toOption] at ih ⊢
      omega
    | bad =>
      simp [decodeOk, decodeErrCount, List.filterMap_cons, List.countP_cons,
        decode_bad_toOption] at ih ⊢
      omega

/-- Modelled from the spec: systemic-failure abort of the Import Coordinator. -/
inductive ImportAbortedErr where
  | threshold
deriving DecidableEq, Repr

/-- Modelled from the spec: Import Coordinator configuration — batch size and
the configurable per-batch decode-failure threshold, in permille. -/
structure ImportConfig where
  batchSize : Nat
  thresholdPermille : Nat
deriving DecidableEq, Repr

/-- Modelled from the spec: per-batch work of the Import Coordinator — decode
every record, collect failures; when the failure rate exceeds the configured
threshold abort with `ImportAbortedError`, otherwise commit exactly the
successfully decoded subset and report the failure count. -/
def processBatch (cfg : ImportConfig) (rs : List Raw) (s : List Entity) :
    Except ImportAbortedErr (List Entity × Nat) :=
  if cfg.thresholdPermille * rs.length < decodeErrCount rs * 1000 then
    Except.error ImportAbortedErr.threshold
  else
    Except.ok (upsert_batch (decodeOk rs) s, decodeErrCount rs)

/-- Modelled from the spec: the durable process state the import pipeline keeps
across a crash — the Storage Engine contents and the `ImportCheckpoint`'s
offset of the first record not yet known committed (byte offsets are
abstracted to record indices). -/
structure PState where
  store : List Entity
  ckpt : Nat
deriving DecidableEq, Repr

/-- The fixed-size batch of raw records starting at checkpoint offset `c`. -/
def nextBatch (B : Nat) (d : List Raw) (c : Nat) : List Raw :=
  (d.drop c).take B

/-- The store contents after committing exactly the first `m` records of the
dump on top of the initial store `s0`. -/
def committedUpTo (d : List Raw) (s0 : List Entity) (m : Nat) : List Entity :=
  upsert_batch (decodeOk (d.take m)) s0

/-- One durable Storage Engine commit of the current batch, checkpoint not yet
saved — exactly the state a crash between commit and checkpoint save leaves. -/
def commitBatch (B : Nat) (d : List Raw) (p : PState) : PState :=
  { p with store := upsert_batch (decodeOk (nextBatch B d p.ckpt)) p.store }

/-- One full pipeline step: durable batch commit, then the atomic checkpoint
save advancing the offset past the committed batch. -/
def stepBatch (B : Nat) (d : List Raw) (p : PState) : PState :=
  { store := (commitBatch B d p).store
    ckpt := p.ckpt + (nextBatch B d p.ckpt).length }

/-- Fuel-indexed import loop: process batches while records remain. -/
def runFuel (B : Nat) (d : List Raw) : Nat → PState → PState
  | 0, p => p
  | n + 1, p =>
    if p.ckpt < d.length then runFuel B d n (stepBatch B d p) else p

/-- Modelled from the spec: running (or resuming) the import from durable state
`p` to completion. A fuel of `d.length` always suffices since every step
advances the checkpoint by at least one record. -/
def runImport (B : Nat) (d : List Raw) (p : PState) : PState :=
  runFuel B d d.length p

/-- Durable states reachable by the import pipeline on dump `d` with batch size
`B` from initial store `s0`: the initial state, a state after a full step, and
the state a crash leaves when the process dies after the batch commit but
before (or during, since the save is atomic) the checkpoint save. A crash at
any other byte offset leaves the previous durable state, which is already in
the relation. -/
inductive Reach (B : Nat) (d : List Raw) (s0 : List Entity) : PState → Prop where
  | init : Reach B d s0 { store := s0, ckpt := 0 }
  | step {p : PState} : Reach B d s0 p → p.ckpt < d.length →
      Reach B d s0 (stepBatch B d p)
  | crashCommit {p : PState} : Reach B d s0 p → p.ckpt < d.length →
      Reach B d s0 (commitBatch B d p)

/-- Pipeline invariant: the checkpoint never passes the end of the dump, and
the store holds exactly the effect of some prefix of the dump that extends at
least to the checkpoint — either exactly the checkpointed prefix, or that
prefix plus one committed-but-not-yet-checkpointed batch. -/
def Inv (B : Nat) (d : List Raw) (s0 : List Entity) (p : PState) : Prop :=
  p.ckpt ≤ d.length ∧
  (p.store = committedUpTo d s0 p.ckpt ∨
   p.store = committedUpTo d s0 (p.ckpt + (nextBatch B d p.ckpt).length))

theorem nextBatch_length (B : Nat) (d : List Raw) (c : Nat) :
    (nextBatch B d c).length = min B (d.length - c) := by
  simp [nextBatch]

/-- The checkpointed prefix plus the next batch is the longer prefix. -/
theorem take_add_nextBatch (B : Nat) (d : List Raw) (c : Nat) :
    d.take (c + (nextBatch B d c).length) = d.take c ++ nextBatch B d c := by
  rw [List.take_add]
  congr 1
  rw [nextBatch_length]
  rcases Nat.le_total B (d.length - c) with h | h
  · rw [Nat.min_eq_left h]
    rfl
  · rw [Nat.min_eq_right h]
    have hlen : (d.drop c).length = d.length - c := List.length_drop c d
    have h1 : (d.drop c).length ≤ d.length - c := le_of_eq hlen
    have h2 : (d.drop c).length ≤ B := by
      rw [hlen]
      exact h
    rw [show nextBatch B d c = (d.drop c).take B from rfl]
    rw [List.take_of_length_le h1, List.take_of_length_le h2]

/-- Committing the next batch on top of the checkpointed prefix yields the
longer committed prefix. -/
theorem commit_next_batch (B : Nat) (d : List Raw) (s0 : List Entity) (c : Nat) :
    upsert_batch (decodeOk (nextBatch B d c)) (committedUpTo d s0 c) =
      committedUpTo d s0 (c + (nextBatch B d c).length) := by
  rw [committedUpTo, committedUpTo, take_add_nextBatch, decodeOk_append,
    upsert_batch_append]

/-- Re-committing an already-committed batch leaves the store unchanged:
idempotence of upserts makes the replay harmless. -/
theorem commit_next_idem (B : Nat) (d : List Raw) (s0 : List Entity) (c : Nat) :
    upsert_batch (decodeOk (nextBatch B d c))
        (committedUpTo d s0 (c + (nextBatch B d c).length)) =
      committedUpTo d s0 (c + (nextBatch B d c).length) := by
  rw [← commit_next_batch, upsert_batch_idem, commit_next_batch]

theorem Inv_commitBatch (B : Nat) (d : List Raw) (s0 : List Entity) (p : PState)
    (h : Inv B d s0 p) : Inv B d s0 (commitBatch B d p) := by
  obtain ⟨hc, hs | hs⟩ := h
  · exact ⟨hc, Or.inr (by rw [commitBatch, hs, commit_next_batch])⟩
  · exact ⟨hc, Or.inr (by rw [commitBatch, hs, commit_next_idem])⟩

theorem Inv_stepBatch (B : Nat) (d : List Raw) (s0 : List Entity) (p : PState)
    (h : Inv B d s0 p) : Inv B d s0 (stepBatch B d p) := by
  obtain ⟨hc, hs | hs⟩ := h
  · refine ⟨?_, Or.inl ?_⟩
    · rw [stepBatch]
      simp only [nextBatch_length]
      omega
    · rw [stepBatch]
      simp only [commitBatch, hs]
      rw [commit_next_batch]
  · refine ⟨?_, Or.inl ?_⟩
    · rw [stepBatch]
      simp only [nextBatch_length]
      omega
    · rw [stepBatch]
      simp only [commitBatch, hs]
      rw [commit_next_idem]

theorem Inv_of_Reach (B : Nat) (d : List Raw) (s0 : List Entity) (p : PState)
    (h : Reach B d s0 p) : Inv B d s0 p := by
  induction h with
  | init =>
    refine ⟨Nat.zero_le _, Or.inl ?_⟩
    simp [committedUpTo, decodeOk, upsert_batch]
  | step _ _ ih => exact Inv_stepBatch B d s0 _ ih
  | crashCommit _ _ ih => exact Inv_commitBatch B d s0 _ ih

/-- At an invariant state whose checkpoint reached the end, the store holds the
whole dump's effect. -/
theorem Inv_store_at_end (B : Nat) (d : List Raw) (s0 : List Entity) (p : PState)
    (h : Inv B d s0 p) (hend : d.length ≤ p.ckpt) :
    p.store = committedUpTo d s0 d.length := by
  obtain ⟨hc, hs | hs⟩ := h
  · rw [hs]
    congr 1
    omega
  · rw [hs]
    have : (nextBatch B d p.ckpt).length = 0 := by
      rw [nextBatch_length]
      omega
    rw [this]
    congr 1
    omega

/-- With positive batch size and enough fuel, the import loop drives any
invariant state to completion: checkpoint at end of dump, store holding the
whole dump's effect. -/
theorem runFuel_complete (B : Nat) (d : List Raw) (s0 : List Entity)
    (hB : 0 < B) :
    ∀ (n : Nat) (p : PState), d.length ≤ p.ckpt + n → Inv B d s0 p →
      (runFuel B d n p).store = committedUpTo d s0 d.length ∧
      (runFuel B d n p).ckpt = d.length := by
  intro n
  induction n with
  | zero =>
    intro p hn hinv
    have hend : d.length ≤ p.ckpt := by omega
    exact ⟨Inv_store_at_end B d s0 p hinv hend, le_antisymm hinv.1 hend⟩
  | succ n ih =>
    intro p hn hinv
    rw [runFuel]
    by_cases hlt : p.ckpt < d.length
    · rw [if_pos hlt]
      apply ih
      · rw [stepBatch]
        simp only [nextBatch_length]
        omega
      · exact Inv_stepBatch B d s0 p hinv
    · rw [if_neg hlt]
      have hend : d.length ≤ p.ckpt := by omega
      exact ⟨Inv_store_at_end B d s0 p hinv hend, le_antisymm hinv.1 hend⟩

/-- Modelled from the spec: `StorageIOError` — disk/full/permission failure of
a Storage Engine batch write. -/
inductive StorageErr where
  | ioError
deriving DecidableEq, Repr

/-- Modelled from the spec: the state of one `upsert_batch` transaction — the
base store visible to readers, the privately staged journal of rows, and the
committed flag flipped by the single atomic commit. -/
structure Tx where
  base : List Entity
  journal : List Entity
  committed : Bool
deriving DecidableEq, Repr

/-- What a reader observes while / after a transaction: the base store until
the atomic commit, the fully applied batch afterwards. -/
def txVisible (t : Tx) : List Entity :=
  if t.committed then upsert_batch t.journal t.base else t.base

/-- Modelled from the spec: running one `upsert_batch` transaction. `fail =
some k` means a `StorageIOError` (or crash) struck after `k` rows had been
staged: the journal is discarded uncommitted. `fail = none` means all rows were
staged and the transaction committed atomically. -/
def runTx (b : List Entity) (s : List Entity) : Option Nat → Tx
  | some k => { base := s, journal := b.take k, committed := false }
  | none => { base := s, journal := b, committed := true }

/-- The error a transaction run reports. -/
def txError : Option Nat → Option StorageErr
  | some _ => some StorageErr.ioError
  | none => none

/-- Modelled from the spec: the SearchIndex is derived from the Entity rows
(label, description and alias text per entity) and rebuildable from them, so
an index entry exists exactly for each visible row. -/
def searchIndex (s : List Entity) : List (String × List String) :=
  s.map (fun e =>
    (e.id, e.labels.map Prod.snd ++ e.descriptions.map Prod.snd ++
      (e.aliases.map Prod.snd).foldr (fun a acc => a ++ acc) []))

/-- C4: `upsert_batch` is atomic — whatever point a failure strikes, a reader
sees either the untouched store or the fully applied batch with its matching
SearchIndex entries, never a partial batch; a `StorageIOError` leaves the store
unchanged, and retrying the same batch after any failure yields exactly the
state a first-time success would have produced. -/
theorem upsert_batch_atomic (b s : List Entity) (fail : Option Nat) :
    (txVisible (runTx b s fail) = s ∨ txVisible (runTx b s fail) = upsert_batch b s) ∧
    (∀ k : Nat, txVisible (runTx b s (some k)) = s ∧
      txError (some k) = some StorageErr.ioError) ∧
    (∀ k : Nat, txVisible (runTx b (txVisible (runTx b s (some k))) none) =
      upsert_batch b s) ∧
    (searchIndex (txVisible (runTx b s fail)) = searchIndex s ∨
      searchIndex (txVisible (runTx b s fail)) = searchIndex (upsert_batch b s)) := by
  refine ⟨?_, ?_, ?_, ?_⟩
  · cases fail with
    | some k => exact Or.inl rfl
    | none => exact Or.inr rfl
  · intro k
    exact ⟨rfl, rfl⟩
  · intro k
    rfl
  · cases fail with
    | some k => exact Or.inl rfl
    | none => exact Or.inr rfl

/-- C5: when a batch's decode-failure rate stays within the configured
threshold, the Import Coordinator commits exactly the successfully decoded
records and reports the failure count without aborting (successes plus
reported failures account for every record of the batch); when the rate
exceeds the threshold, the whole import aborts with `ImportAbortedError`. -/
theorem coordinator_decode_tolerance (cfg : ImportConfig) (rs : List Raw)
    (s : List Entity) :
    (decodeErrCount rs * 1000 ≤ cfg.thresholdPermille * rs.length →
      processBatch cfg rs s =
        Except.ok (upsert_batch (decodeOk rs) s, decodeErrCount rs) ∧
      (decodeOk rs).length + decodeErrCount rs = rs.length) ∧
    (cfg.thresholdPermille * rs.length < decodeErrCount rs * 1000 →
      processBatch cfg rs s = Except.error ImportAbortedErr.threshold) := by
  constructor
  · intro h
    refine ⟨?_, decodeOk_length_add_errCount rs⟩
    rw [processBatch, if_neg (by omega)]
  · intro h
    rw [processBatch, if_pos h]

/-- C3: in every reachable durable state of the import pipeline — including
the state a crash leaves between a batch commit and the atomic checkpoint
save — the store already holds the effect of a dump prefix extending at least
to the checkpoint offset: the checkpoint never refers to a byte offset whose
batch was not durably committed. -/
theorem checkpoint_trails_commit (B : Nat) (d : List Raw) (s0 : List Entity)
    (p : PState) (hp : Reach B d s0 p) :
    p.ckpt ≤ d.length ∧
    ∃ m : Nat, p.ckpt ≤ m ∧ m ≤ d.length ∧ p.store = committedUpTo d s0 m := by
  obtain ⟨hc, hs | hs⟩ := Inv_of_Reach B d s0 p hp
  · exact ⟨hc, p.ckpt, le_rfl, hc, hs⟩
  · refine ⟨hc, p.ckpt + (nextBatch B d p.ckpt).length, Nat.le_add_right _ _, ?_, hs⟩
    rw [nextBatch_length]
    omega

/-- C1: for every dump, crashing the import at an arbitrary point — before a
batch, after a commit but before the checkpoint save, or during the atomic
save — and resuming from the saved checkpoint produces exactly the final store
of an uninterrupted import, namely the whole dump's decoded records upserted
in order; committed batches are never re-applied more than once in effect. -/
theorem import_crash_resume_eq (B : Nat) (d : List Raw) (s0 : List Entity)
    (p : PState) (hB : 0 < B) (hp : Reach B d s0 p) :
    (runImport B d p).store = (runImport B d { store := s0, ckpt := 0 }).store ∧
    (runImport B d { store := s0, ckpt := 0 }).store =
      upsert_batch (decodeOk d) s0 := by
  have hfull : (runImport B d { store := s0, ckpt := 0 }).store =
      committedUpTo d s0 d.length := by
    have h0 : Inv B d s0 { store := s0, ckpt := 0 } :=
      Inv_of_Reach B d s0 _ Reach.init
    exact (runFuel_complete B d s0 hB d.length _ (by omega) h0).1
  have hres : (runImport B d p).store = committedUpTo d s0 d.length := by
    have hinv : Inv B d s0 p := Inv_of_Reach B d s0 p hp
    exact (runFuel_complete B d s0 hB d.length p (by omega) hinv).1
  have hsem : committedUpTo d s0 d.length = upsert_batch (decodeOk d) s0 := by
    rw [committedUpTo, List.take_of_length_le le_rfl]
  exact ⟨by rw [hfull, hres], by rw [hfull, hsem]⟩

/-- A tiny concrete entity used by the witnesses below. -/
def wEnt (i : String) (k : Kind) (lab : String) : Entity :=
  { id := i, kind := k, labels := [("en", lab)], descriptions := [],
    aliases := [], claims := "", fetched_at := 0, source := Source.dump }

/-- Concrete three-record dump for the pipeline witnesses. -/
def wDump : List Raw :=
  [Raw.good (wEnt "Q1" Kind.item "Paris"), Raw.bad,
   Raw.good (wEnt "Q2" Kind.item "Paris Hilton")]

/-- Witness for C1 at a concrete crashed state: one batch was committed but the
checkpoint save never happened; resuming still reaches the uninterrupted
import's final store. -/
theorem import_crash_resume_eq_witness :
    (runImport 2 wDump (commitBatch 2 wDump { store := [], ckpt := 0 })).store =
      (runImport 2 wDump { store := ([] : List Entity), ckpt := 0 }).store ∧
    (runImport 2 wDump { store := ([] : List Entity), ckpt := 0 }).store =
      upsert_batch (decodeOk wDump) [] :=
  import_crash_resume_eq 2 wDump [] _ (by decide)
    (Reach.crashCommit Reach.init (by decide))

/-- Witness for C3 at a concrete reachable state: after one full step of the
pipeline on the witness dump, the checkpoint trails committed data. -/
theorem checkpoint_trails_commit_witness :
    (stepBatch 2 wDump { store := ([] : List Entity), ckpt := 0 }).ckpt ≤
      wDump.length ∧
    ∃ m : Nat, (stepBatch 2 wDump { store := ([] : List Entity), ckpt := 0 }).ckpt ≤ m ∧
      m ≤ wDump.length ∧
      (stepBatch 2 wDump { store := ([] : List Entity), ckpt := 0 }).store =
        committedUpTo wDump [] m :=
  checkpoint_trails_commit 2 wDump [] _ (Reach.step Reach.init (by decide))

/-- Witness for C5: a concrete batch with one malformed record among two valid
ones, against a 500-permille threshold — the coordinator commits the two
decoded records and reports one failure without aborting. -/
theorem coordinator_decode_tolerance_witness :
    decodeErrCount wDump * 1000 ≤
      (ImportConfig.mk 1000 500).thresholdPermille * wDump.length ∧
    processBatch (ImportConfig.mk 1000 500) wDump [] =
      Except.ok (upsert_batch (decodeOk wDump) [], decodeErrCount wDump) ∧
    (decodeOk wDump).length + decodeErrCount wDump = wDump.length :=
  ⟨by decide,
   (coordinator_decode_tolerance (ImportConfig.mk 1000 500) wDump []).1 (by decide)⟩

/-- Modelled from the spec: the Write-Through Cache Coordinator's state for one
entity id — the cached row if any, whether a fetch to the external capability
is in flight, the callers waiting on that fetch, how many upstream calls were
made, and the results delivered to callers so far. -/
structure CacheState where
  cached : Option Entity
  inflight : Bool
  waiters : List Nat
  fetchCalls : Nat
  delivered : List (Nat × Entity)
deriving DecidableEq, Repr

/-- The coordinator's state before any lookup: nothing cached, no fetch in
flight. -/
def cacheInit : CacheState :=
  { cached := none
    inflight := false
    waiters := []
    fetchCalls := 0
    delivered := [] }

/-- Modelled from the spec: a caller's lookup arriving at the coordinator. A
cache hit is answered directly; on a miss the first caller starts the single
upstream fetch and later callers join the waiter list of the in-flight call. -/
def arrive (c : Nat) (st : CacheState) : CacheState :=
  match st.cached with
  | some e => { st with delivered := (c, e) :: st.delivered }
  | none =>
    if st.inflight then { st with waiters := c :: st.waiters }
    else
      { st with
        inflight := true
        fetchCalls := st.fetchCalls + 1
        waiters := [c] }

/-- Modelled from the spec: the in-flight fetch returning value `v` — the row
is cached, and every waiting caller receives this single call's result. -/
def complete (v : Entity) (st : CacheState) : CacheState :=
  if st.inflight then
    { st with
      cached := some v
      inflight := false
      waiters := []
      delivered := st.waiters.map (fun c => (c, v)) ++ st.delivered }
  else st

/-- A full single-flight episode: the concurrent cache-miss lookups arrive in
an arbitrary interleaving order while the fetch is outstanding, then the fetch
completes with `v`. -/
def runSingleFlight (callers : List Nat) (v : Entity) : CacheState :=
  complete v (callers.foldl (fun t c => arrive c t) cacheInit)

/-- While a fetch is in flight and nothing is cached, further arrivals only
accumulate on the waiter list. -/
theorem arrive_foldl_inflight (cs : List Nat) (st : CacheState)
    (hc : st.cached = none) (hi : st.inflight = true) :
    cs.foldl (fun t c => arrive c t) st =
      { st with waiters := cs.reverse ++ st.waiters } := by
  induction cs generalizing st with
  | nil => simp
  | cons c cs ih =>
    rw [List.foldl_cons]
    have ha : arrive c st = { st with waiters := c :: st.waiters } := by
      simp [arrive, hc, hi]
    rw [ha, ih { st with waiters := c :: st.waiters } hc hi]
    simp

/-- C6: for every nonempty set of concurrent cache-miss lookups for an id, in
whatever order they reach the coordinator, exactly one call goes to the
external fetch capability; every caller receives a result, that result is the
single call's value for all of them, and nobody outside the callers gets
one. -/
theorem single_flight_one_fetch (callers : List Nat) (v : Entity)
    (h : callers ≠ []) :
    (runSingleFlight callers v).fetchCalls = 1 ∧
    (runSingleFlight callers v).delivered.length = callers.length ∧
    (∀ p ∈ (runSingleFlight callers v).delivered, p.2 = v) ∧
    (∀ c ∈ callers, (c, v) ∈ (runSingleFlight callers v).delivered) := by
  cases callers with
  | nil => exact absurd rfl h
  | cons c cs =>
    have hfirst : arrive c cacheInit =
        { cached := none
          inflight := true
          waiters := [c]
          fetchCalls := 1
          delivered := [] } := rfl
    have hrun : runSingleFlight (c :: cs) v =
        complete v
          { cached := none
            inflight := true
            waiters := cs.reverse ++ [c]
            fetchCalls := 1
            delivered := [] } := by
      rw [runSingleFlight, List.foldl_cons, hfirst,
        arrive_foldl_inflight cs _ rfl rfl]
    rw [hrun]
    refine ⟨rfl, by simp [complete], ?_, ?_⟩
    · intro p hp
      simp only [complete, if_pos rfl, List.append_nil] at hp
      obtain ⟨x, _, rfl⟩ := List.mem_map.1 hp
      rfl
    · intro c' hc'
      simp only [complete, if_pos rfl, List.append_nil]
      apply List.mem_map.2
      refine ⟨c', ?_, rfl⟩
      simp only [List.mem_append, List.mem_reverse, List.mem_singleton]
      rcases List.mem_cons.1 hc' with rfl | hm
      · exact Or.inr rfl
      · exact Or.inl hm

/-- Witness for C6: three concurrent lookups for an uncached id produce one
upstream call, three deliveries, all carrying that call's result. -/
theorem single_flight_one_fetch_witness :
    (runSingleFlight [7, 8, 9] (wEnt "Q1" Kind.item "Paris")).fetchCalls = 1 ∧
    (runSingleFlight [7, 8, 9] (wEnt "Q1" Kind.item "Paris")).delivered.length =
      ([7, 8, 9] : List Nat).length ∧
    (∀ p ∈ (runSingleFlight [7, 8, 9] (wEnt "Q1" Kind.item "Paris")).delivered,
      p.2 = wEnt "Q1" Kind.item "Paris") ∧
    (∀ c ∈ ([7, 8, 9] : List Nat),
      (c, wEnt "Q1" Kind.item "Paris") ∈
        (runSingleFlight [7, 8, 9] (wEnt "Q1" Kind.item "Paris")).delivered) :=
  single_flight_one_fetch [7, 8, 9] (wEnt "Q1" Kind.item "Paris") (by decide)

/-- Concatenate a list of token lists. -/
def catLists (ls : List (List String)) : List String :=
  ls.foldr (fun a acc => a ++ acc) []

/-- Modelled from the spec: tokenized text — lowercase, split on
non-alphanumeric characters, empty fragments dropped. -/
def tokenize (s : String) : List String :=
  ((s.toLower).split (fun c => !c.isAlphanum)).filter (fun t => !t.isEmpty)

/-- Modelled from the spec: the searchable text of an entity — its labels,
descriptions and aliases, tokenized. -/
def entityTokens (e : Entity) : List String :=
  catLists ((e.labels.map Prod.snd ++ e.descriptions.map Prod.snd ++
    catLists (e.aliases.map Prod.snd)).map tokenize)

/-- Modelled from the spec: relevance score of an entity for a query — how
many query tokens match the entity's text. -/
def relevance (q : String) (e : Entity) : Nat :=
  (tokenize q).countP (fun t => (entityTokens e).contains t)

/-- Result ordering of `search`: highest relevance first, ties broken by id
ascending. -/
def searchLE (a b : Entity × Nat) : Bool :=
  decide (b.2 < a.2) || (a.2 == b.2 && decide (a.1.id ≤ b.1.id))

/-- Modelled from the spec: `search(query_text, limit)` — score every stored
entity, keep the tokenized matches, order by relevance then id, truncate to
the limit. -/
def search (q : String) (lim : Nat) (s : List Entity) : List (Entity × Nat) :=
  (((s.map (fun e => (e, relevance q e))).filter
    (fun p => decide (0 < p.2))).mergeSort searchLE).take lim

theorem searchLE_iff (a b : Entity × Nat) :
    searchLE a b = true ↔ (b.2 < a.2 ∨ (a.2 = b.2 ∧ a.1.id ≤ b.1.id)) := by
  simp [searchLE]

theorem searchLE_trans (a b c : Entity × Nat) (h1 : searchLE a b)
    (h2 : searchLE b c) : searchLE a c := by
  rw [searchLE_iff] at h1 h2 ⊢
  rcases h1 with h | ⟨he, hid⟩ <;> rcases h2 with h' | ⟨he', hid'⟩
  · exact Or.inl (by omega)
  · exact Or.inl (by omega)
  · exact Or.inl (by omega)
  · exact Or.inr ⟨he.trans he', le_trans hid hid'⟩

theorem searchLE_total (a b : Entity × Nat) : searchLE a b || searchLE b a := by
  simp only [Bool.or_eq_true, searchLE_iff]
  rcases Nat.lt_trichotomy a.2 b.2 with h | h | h
  · exact Or.inr (Or.inl h)
  · rcases le_total a.1.id b.1.id with hid | hid
    · exact Or.inl (Or.inr ⟨h, hid⟩)
    · exact Or.inr (Or.inr ⟨h.symm, hid⟩)
  · exact Or.inl (Or.inl h)

/-- C7: search results are sorted by relevance score descending with ties
broken strictly by entity id ascending (given the store's id-uniqueness
invariant), every returned row carries its true positive relevance score, and
the returned sequence is identical across repeated runs on the same store. -/
theorem search_ordered_deterministic (q : String) (lim : Nat) (s : List Entity)
    (hnd : (s.map Entity.id).Nodup) :
    (search q lim s).Pairwise
      (fun a b => b.2 < a.2 ∨ (a.2 = b.2 ∧ a.1.id < b.1.id)) ∧
    (∀ p ∈ search q lim s, p.2 = relevance q p.1 ∧ 0 < p.2) ∧
    search q lim s = search q lim s := by
  have hpair : ((((s.map (fun e => (e, relevance q e))).filter
      (fun p => decide (0 < p.2))).mergeSort searchLE).take lim).Pairwise
      (fun a b => searchLE a b = true) := by
    apply List.Pairwise.sublist (List.take_sublist _ _)
    exact List.sorted_mergeSort (fun a b c => searchLE_trans a b c)
      searchLE_total _
  have hids : ((((s.map (fun e => (e, relevance q e))).filter
      (fun p => decide (0 < p.2))).mergeSort searchLE).take lim).Pairwise
      (fun a b => a.1.id ≠ b.1.id) := by
    have h0 : ((s.map (fun e => (e, relevance q e))).map
        (fun p => p.1.id)).Nodup := by
      simpa [List.map_map, Function.comp] using hnd
    have h1 : (((s.map (fun e => (e, relevance q e))).filter
        (fun p => decide (0 < p.2))).map (fun p => p.1.id)).Nodup :=
      List.Nodup.sublist (List.Sublist.map _ (List.filter_sublist _)) h0
    have h2 : ((((s.map (fun e => (e, relevance q e))).filter
        (fun p => decide (0 < p.2))).mergeSort searchLE).map
        (fun p => p.1.id)).Nodup :=
      (((List.mergeSort_perm _ searchLE).map _).nodup_iff).2 h1
    have h3 : (((((s.map (fun e => (e, relevance q e))).filter
        (fun p => decide (0 < p.2))).mergeSort searchLE).take lim).map
        (fun p => p.1.id)).Nodup :=
      List.Nodup.sublist (List.Sublist.map _ (List.take_sublist _ _)) h2
    exact List.pairwise_map.1 h3
  refine ⟨?_, ?_, rfl⟩
  · refine (hpair.and hids).imp ?_
    intro a b ⟨hle, hne⟩
    rcases (searchLE_iff a b).1 hle with h | ⟨he, hid⟩
    · exact Or.inl h
    · exact Or.inr ⟨he, lt_of_le_of_ne hid hne⟩
  · intro p hp
    have hp1 : p ∈ ((s.map (fun e => (e, relevance q e))).filter
        (fun p => decide (0 < p.2))).mergeSort searchLE :=
      (List.take_sublist _ _).subset hp
    have hp2 := List.mem_mergeSort.1 hp1
    obtain ⟨hmem, hpos⟩ := List.mem_filter.1 hp2
    obtain ⟨e, _, rfl⟩ := List.mem_map.1 hmem
    exact ⟨rfl, by simpa using hpos⟩

/-- Concrete store for the C7 witness: the spec's Paris example. -/
def wStore : List Entity :=
  [wEnt "Q1" Kind.item "Paris", wEnt "Q2" Kind.item "Paris Hilton"]

/-- Witness for C7 at the spec's own example: ids are unique, so the searched
results for "Paris" come back relevance-first, id-ascending on ties, with true
scores, deterministically. -/
theorem search_ordered_deterministic_witness :
    (wStore.map Entity.id).Nodup ∧
    ((search "Paris" 20 wStore).Pairwise
      (fun a b => b.2 < a.2 ∨ (a.2 = b.2 ∧ a.1.id < b.1.id)) ∧
    (∀ p ∈ search "Paris" 20 wStore, p.2 = relevance "Paris" p.1 ∧ 0 < p.2) ∧
    search "Paris" 20 wStore = search "Paris" 20 wStore) :=
  ⟨by decide, search_ordered_deterministic "Paris" 20 wStore (by decide)⟩

namespace Frontend

/-- A search result row as the frontend declares it
(src/frontend/src/routes/+page.svelte, interface SearchResult). -/
structure SearchResult where
  id : String
  type : String
  label : Option String
  description : Option String
deriving DecidableEq, Repr

/-- The component state touched by the frontend's `search` function: the bound
`query` input, the displayed `results` list and the `loading` flag. -/
structure PageState where
  query : String
  results : List SearchResult
  loading : Bool
deriving DecidableEq, Repr

/-- Outcome of the network request issued by `search`: the parsed results on
success, or any failure of `fetch` / `response.json()` (caught by the
function's try/catch). -/
inductive FetchOutcome where
  | ok (rs : List SearchResult)
  | fail
deriving DecidableEq, Repr

/-- The request `search` issues: the URL-encoded value of the `q` parameter
and the value of the `limit` parameter. -/
structure Request where
  q : String
  limit : Nat
deriving DecidableEq, Repr

/-- Hexadecimal digit characters as `encodeURIComponent` emits them. -/
def hexDigit (n : Nat) : Char :=
  if n < 10 then Char.ofNat (48 + n) else Char.ofNat (65 + (n - 10))

/-- A percent-encoded byte, `%HH`. -/
def byteHex (b : Nat) : String :=
  String.mk ['%', hexDigit (b / 16 % 16), hexDigit (b % 16)]

/-- Characters `encodeURIComponent` leaves unescaped (ECMA-262
uriUnescaped). -/
def isUnescapedURI (c : Char) : Bool :=
  c.isAlphanum || c == '-' || c == '_' || c == '.' || c == '!' || c == '~' ||
    c == '*' || c == Char.ofNat 39 || c == '(' || c == ')'

/-- One character of `encodeURIComponent` output: kept verbatim when
unescaped, otherwise its UTF-8 bytes percent-encoded. -/
def encodeChar (c : Char) : String :=
  if isUnescapedURI c then String.singleton c
  else String.join (((String.singleton c).toUTF8.toList).map
    (fun b => byteHex b.toNat))

/-- The `encodeURIComponent` the frontend applies to the query text. -/
def encodeURIComponent (s : String) : String :=
  String.join (s.toList.map encodeChar)

/-- State change of the frontend `search` after its network request resolves:
`results` is replaced on success and kept on failure (the catch block only
logs), and the `finally` block clears `loading` in either case. -/
def applyOutcome (o : FetchOutcome) (st : PageState) : PageState :=
  match o with
  | FetchOutcome.ok rs => { st with results := rs, loading := false }
  | FetchOutcome.fail => { st with loading := false }

/-- The guard `!query.trim()` of the frontend `search`: the trimmed query is
the empty string exactly when every character of the query is whitespace. -/
def isBlank (s : String) : Bool :=
  s.toList.all (fun c => c.isWhitespace)

/-- The frontend's `search` function (src/frontend/src/routes/+page.svelte,
lines 29–45), embedded as a state transformer returning the new component
state and the network request it issues, if any. A blank query (empty after
trimming, the `!query.trim()` guard) clears the results and returns without
touching the network or the loading flag; otherwise a request with the
URL-encoded query and `limit=20` goes out and the state is updated per the
outcome. The transient `loading = true` set before the await is not
observable in the sequential model; the returned state is the one after the
function finishes. -/
def search (o : FetchOutcome) (st : PageState) : PageState × Option Request :=
  if isBlank st.query then ({ st with results := [] }, none)
  else (applyOutcome o st, some { q := encodeURIComponent st.query, limit := 20 })

/-- C8: an empty or whitespace-only query makes the frontend `search` set the
displayed result list to the empty list and issue no network request, leaving
the rest of the state alone. -/
theorem search_blank_query_no_request (o : FetchOutcome) (st : PageState)
    (h : isBlank st.query = true) :
    (search o st).1.results = [] ∧ (search o st).2 = none ∧
    (search o st).1.query = st.query ∧ (search o st).1.loading = st.loading := by
  rw [search, if_pos h]
  exact ⟨rfl, rfl, rfl, rfl⟩

/-- A concrete result row shown on screen, for the frontend witnesses. -/
def wRes : SearchResult := ⟨"Q1", "item", none, none⟩

/-- A concrete page state with a whitespace-only query. -/
def wBlankPage : PageState := ⟨"   ", [wRes], true⟩

/-- A concrete page state with a non-blank query and a visible result. -/
def wParisPage : PageState := ⟨"paris", [wRes], true⟩

/-- Witness for C8: a whitespace-only query with stale results on screen is
cleared and no request is issued. -/
theorem search_blank_query_no_request_witness :
    (search FetchOutcome.fail wBlankPage).1.results = [] ∧
    (search FetchOutcome.fail wBlankPage).2 = none ∧
    (search FetchOutcome.fail wBlankPage).1.query = wBlankPage.query ∧
    (search FetchOutcome.fail wBlankPage).1.loading = wBlankPage.loading :=
  search_blank_query_no_request FetchOutcome.fail wBlankPage (by decide)

/-- C9: every network request the frontend `search` issues carries the limit
parameter fixed at 20 and the query text URL-encoded; no input can produce a
request with another limit. -/
theorem search_request_limit_20 (o : FetchOutcome) (st : PageState)
    (r : Request) (h : (search o st).2 = some r) :
    r.limit = 20 ∧ r.q = encodeURIComponent st.query := by
  by_cases hq : isBlank st.query = true
  · rw [search, if_pos hq] at h
    cases h
  · rw [search, if_neg hq] at h
    simp only [Option.some.injEq] at h
    rw [← h]
    exact ⟨rfl, rfl⟩

/-- The concrete request the C9 witness expects `search` to issue. -/
def wReq : Request := ⟨encodeURIComponent "paris", 20⟩

/-- Witness for C9: a concrete non-blank query issues a request, and that
request has limit 20 and the URL-encoded query text. -/
theorem search_request_limit_20_witness :
    (search (FetchOutcome.ok []) wParisPage).2 = some wReq ∧
    wReq.limit = 20 ∧ wReq.q = encodeURIComponent wParisPage.query :=
  ⟨by rw [search, if_neg (by decide)]; rfl,
   search_request_limit_20 (FetchOutcome.ok []) wParisPage wReq
     (by rw [search, if_neg (by decide)]; rfl)⟩

/-- C10: when the network request fails, the frontend `search` leaves the
previously displayed result list unchanged, and the loading flag ends up false
whether the request succeeded or failed. -/
theorem search_failure_keeps_results (st : PageState)
    (h : isBlank st.query = false) :
    (search FetchOutcome.fail st).1.results = st.results ∧
    (search FetchOutcome.fail st).1.loading = false ∧
    (∀ rs : List SearchResult,
      (search (FetchOutcome.ok rs) st).1.loading = false) := by
  rw [search, if_neg (by simp [h])]
  refine ⟨rfl, rfl, ?_⟩
  intro rs
  rw [search, if_neg (by simp [h])]
  rfl

/-- Witness for C10: a failed request over a non-blank query keeps the shown
results and clears the loading flag; a successful one also clears it. -/
theorem search_failure_keeps_results_witness :
    (search FetchOutcome.fail wParisPage).1.results = wParisPage.results ∧
    (search FetchOutcome.fail wParisPage).1.loading = false ∧
    (∀ rs : List SearchResult,
      (search (FetchOutcome.ok rs) wParisPage).1.loading = false) :=
  search_failure_keeps_results wParisPage (by decide)

end Frontend

end LocalWikidata
